import Mathlib

/-!
A shallow embedding of the CGRtools core: `src/CGRtools/containers.py`
(`MoleculeContainer`, `CGRContainer`) and `src/CGRtools/core.py` (`CGRcore`).

Modelling conventions:
* Python attribute dictionaries are insertion-ordered association lists with
  unique keys (`Attrs`); `dict.get` returning `None` for a missing key is
  `pyGet`, which also maps an absent key to the Python value `None`.
* Python values occurring in the container code are `PVal` (None, int, str,
  tuple, list).
* A networkx graph is a node list plus an edge list (`PyGraph`).  For graphs
  built through `add_edge`, the per-node adjacency order used by
  `reset_query_marks` equals the edge-insertion order, which is how `adj`
  iterates.  `add_node`/`add_edge` on an existing node/edge update its
  attribute dictionary in place, as in networkx.
* Python set iteration order is unspecified; where the source iterates a set
  we iterate in ascending order of the atom ids, and `list(set(...))` is
  modelled as deduplication.  No theorem below depends on these choices.
* `node_link_data`/`node_link_graph` (the JSON-graph codec, an external
  networkx collaborator) are treated as a faithful inverse pair, so
  `pickle`'s output is modelled by the filtered graph itself (`PickleData`).
* Exceptions are modelled with `Except String`.  Reading `g.stereo` in
  `CGRcore.compose` raises `AttributeError` because neither
  `MoleculeContainer` nor `CGRContainer` (nor networkx `Graph`) defines a
  `stereo` attribute; this is `stereoAttrErr` below.
-/

/-- A Python value as used by the container code: None, int, str, tuple, list. -/
inductive PVal where
  | none : PVal
  | int : Int → PVal
  | str : String → PVal
  | tup : PVal → PVal → PVal
  | lst : List PVal → PVal

/-- First component of a Python 2-tuple (total on `PVal`; only applied to
tuples in the source). -/
def pairFst : PVal → PVal
  | PVal.tup a _ => a
  | v => v

/-- Second component of a Python 2-tuple. -/
def pairSnd : PVal → PVal
  | PVal.tup _ b => b
  | v => v

/-- The list carried by a `lst` value (empty for other constructors). -/
def unlst : PVal → List PVal
  | PVal.lst l => l
  | _ => []

mutual

/-- Structural decidable equality for `PVal` (Python `==` on these values). -/
def pvalDecEq : (a b : PVal) → Decidable (a = b)
  | PVal.none, PVal.none => isTrue rfl
  | PVal.none, PVal.int _ => isFalse (fun h => nomatch h)
  | PVal.none, PVal.str _ => isFalse (fun h => nomatch h)
  | PVal.none, PVal.tup _ _ => isFalse (fun h => nomatch h)
  | PVal.none, PVal.lst _ => isFalse (fun h => nomatch h)
  | PVal.int _, PVal.none => isFalse (fun h => nomatch h)
  | PVal.int a, PVal.int b =>
    match decEq a b with
    | isTrue h => isTrue (by rw [h])
    | isFalse h => isFalse (fun hh => h (by injection hh))
  | PVal.int _, PVal.str _ => isFalse (fun h => nomatch h)
  | PVal.int _, PVal.tup _ _ => isFalse (fun h => nomatch h)
  | PVal.int _, PVal.lst _ => isFalse (fun h => nomatch h)
  | PVal.str _, PVal.none => isFalse (fun h => nomatch h)
  | PVal.str _, PVal.int _ => isFalse (fun h => nomatch h)
  | PVal.str a, PVal.str b =>
    match decEq a b with
    | isTrue h => isTrue (by rw [h])
    | isFalse h => isFalse (fun hh => h (by injection hh))
  | PVal.str _, PVal.tup _ _ => isFalse (fun h => nomatch h)
  | PVal.str _, PVal.lst _ => isFalse (fun h => nomatch h)
  | PVal.tup _ _, PVal.none => isFalse (fun h => nomatch h)
  | PVal.tup _ _, PVal.int _ => isFalse (fun h => nomatch h)
  | PVal.tup _ _, PVal.str _ => isFalse (fun h => nomatch h)
  | PVal.tup a b, PVal.tup c d =>
    match pvalDecEq a c, pvalDecEq b d with
    | isTrue h1, isTrue h2 => isTrue (by rw [h1, h2])
    | isFalse h1, _ => isFalse (fun hh => h1 (congrArg pairFst hh))
    | _, isFalse h2 => isFalse (fun hh => h2 (congrArg pairSnd hh))
  | PVal.tup _ _, PVal.lst _ => isFalse (fun h => nomatch h)
  | PVal.lst _, PVal.none => isFalse (fun h => nomatch h)
  | PVal.lst _, PVal.int _ => isFalse (fun h => nomatch h)
  | PVal.lst _, PVal.str _ => isFalse (fun h => nomatch h)
  | PVal.lst _, PVal.tup _ _ => isFalse (fun h => nomatch h)
  | PVal.lst a, PVal.lst b =>
    match pvalListDecEq a b with
    | isTrue h => isTrue (by rw [h])
    | isFalse h => isFalse (fun hh => h (congrArg unlst hh))

/-- Decidable equality for lists of `PVal`. -/
def pvalListDecEq : (a b : List PVal) → Decidable (a = b)
  | [], [] => isTrue rfl
  | [], _ :: _ => isFalse (fun h => nomatch h)
  | _ :: _, [] => isFalse (fun h => nomatch h)
  | x :: xs, y :: ys =>
    match pvalDecEq x y, pvalListDecEq xs ys with
    | isTrue h1, isTrue h2 => isTrue (by rw [h1, h2])
    | isFalse h1, _ => isFalse (fun hh => h1 (congrArg (fun l => l.headD PVal.none) hh))
    | _, isFalse h2 => isFalse (fun hh => h2 (congrArg List.tail hh))

end

instance : DecidableEq PVal := pvalDecEq

/-- A Python attribute dictionary: insertion-ordered key/value pairs. -/
abbrev Attrs := List (String × PVal)

/-- `d.get(k)`: the stored value, or Python `None` when the key is absent. -/
def pyGet (a : Attrs) (k : String) : PVal :=
  match a.find? (fun kv => kv.1 == k) with
  | some kv => kv.2
  | Option.none => PVal.none

/-- `d[k] = v`: overwrite in place if the key exists, else append. -/
def attrsSet (a : Attrs) (k : String) (v : PVal) : Attrs :=
  if a.any (fun kv => kv.1 == k) then
    a.map (fun kv => if kv.1 == k then (k, v) else kv)
  else a ++ [(k, v)]

/-- `d.update(other)`: set every pair of `b` into `a`, in order. -/
def attrsUpdate (a b : Attrs) : Attrs :=
  b.foldl (fun acc kv => attrsSet acc kv.1 kv.2) a

/-- Python truthiness of the values that occur in the container code. -/
def pyTruthy : PVal → Bool
  | PVal.none => false
  | PVal.int n => n != 0
  | PVal.str s => s != ""
  | PVal.tup _ _ => true
  | PVal.lst xs => !xs.isEmpty

/-- `list(set(xs))`: CPython's set iteration order is hash-dependent; it is
modelled as deduplication (keeping one representative per value). -/
def pySet (xs : List PVal) : List PVal :=
  xs.dedup

/-- A networkx graph: nodes with attributes, undirected edges with
attributes.  Edge pairs are stored in the orientation of their first
`add_edge` call, as in networkx. -/
structure PyGraph where
  nodes : List (Nat × Attrs)
  edges : List (Nat × Nat × Attrs)
deriving DecidableEq

/-- The node ids of a graph, in insertion order (`list(g)`). -/
def PyGraph.nodeIds (g : PyGraph) : List Nat :=
  g.nodes.map (fun p => p.1)

/-- `g.nodes[n]`: the attribute dictionary of node `n` (empty if absent; the
source only reads nodes that exist). -/
def PyGraph.nodeAttrs (g : PyGraph) (n : Nat) : Attrs :=
  match g.nodes.find? (fun p => p.1 == n) with
  | some p => p.2
  | Option.none => []

/-- `g.add_node(n, **attrs)`: update the attribute dictionary if the node
exists, else append a fresh node. -/
def PyGraph.addNode (g : PyGraph) (n : Nat) (attrs : Attrs) : PyGraph :=
  if g.nodes.any (fun p => p.1 == n) then
    { g with nodes := g.nodes.map (fun p => if p.1 == n then (p.1, attrsUpdate p.2 attrs) else p) }
  else
    { g with nodes := g.nodes ++ [(n, attrs)] }

/-- Whether a stored edge joins the unordered pair `{u, v}`. -/
def sameEdge (u v : Nat) (e : Nat × Nat × Attrs) : Bool :=
  (e.1 == u && e.2.1 == v) || (e.1 == v && e.2.1 == u)

/-- `g.add_edge(u, v, **attrs)`: endpoints are created when missing (with
empty attributes), and an existing edge has its attribute dictionary
updated, as in networkx. -/
def PyGraph.addEdge (g : PyGraph) (u v : Nat) (attrs : Attrs) : PyGraph :=
  let g1 := (g.addNode u []).addNode v []
  if g1.edges.any (sameEdge u v) then
    { g1 with edges := g1.edges.map (fun e => if sameEdge u v e then (e.1, e.2.1, attrsUpdate e.2.2 attrs) else e) }
  else
    { g1 with edges := g1.edges ++ [(u, v, attrs)] }

/-- `g[i].items()`: the neighbors of `i` with the shared edge attribute
dictionaries, in edge-insertion order. -/
def PyGraph.adj (g : PyGraph) (i : Nat) : List (Nat × Attrs) :=
  g.edges.filterMap (fun e =>
    if e.1 == i then some (e.2.1, e.2.2)
    else if e.2.1 == i then some (e.1, e.2.2)
    else Option.none)

/-- `g.edges(nbunch)`: the stored edges incident to the node set `s`, each
reported once. -/
def edgesIncident (g : PyGraph) (s : Finset Nat) : List (Nat × Nat × Attrs) :=
  g.edges.filter (fun e => decide (e.1 ∈ s) || decide (e.2.1 ∈ s))

/-- `g.subgraph(nbunch).copy()`: the induced subgraph on `s`
(`_fix_stereo` is a no-op in the source). -/
def subgraphOn (g : PyGraph) (s : Finset Nat) : PyGraph :=
  { nodes := g.nodes.filter (fun p => decide (p.1 ∈ s)),
    edges := g.edges.filter (fun e => decide (e.1 ∈ s) && decide (e.2.1 ∈ s)) }

/-- Well-formedness of a graph as networkx guarantees it: unique node ids,
edge endpoints present, and no two stored edges joining the same unordered
pair. -/
def PyGraph.WF (g : PyGraph) : Prop :=
  g.nodeIds.Nodup ∧
  (∀ e ∈ g.edges, e.1 ∈ g.nodeIds ∧ e.2.1 ∈ g.nodeIds) ∧
  g.edges.Pairwise (fun e f => sameEdge e.1 e.2.1 f = false)

instance (g : PyGraph) : Decidable g.WF := by
  unfold PyGraph.WF
  infer_instance

/-- The entity kind: `MoleculeContainer` or its subclass `CGRContainer`. -/
inductive Kind where
  | molecule : Kind
  | cgr : Kind
deriving DecidableEq

/-- A container: an attributed graph with a kind tag and a meta dictionary. -/
structure Container where
  kind : Kind
  graph : PyGraph
  meta : Attrs
deriving DecidableEq

/-! ### The attribute schema (class-level tuples of `containers.py`) -/

/-- `MoleculeContainer.__node_base`. -/
def node_base : List String :=
  ["element", "isotope", "mark", "s_x", "s_y", "s_z"]

/-- `MoleculeContainer._node_marks`. -/
def node_marks_mol : List String :=
  ["s_neighbors", "s_hyb", "s_charge", "s_stereo"]

/-- `MoleculeContainer._node_s = _node_marks + __node_base`. -/
def node_s : List String :=
  node_marks_mol ++ node_base

/-- `MoleculeContainer._edge_s = _edge_marks = ('s_bond', 's_stereo')`. -/
def edge_s : List String :=
  ["s_bond", "s_stereo"]

/-- `CGRContainer._node_marks`: (single, product, combined) triples. -/
def node_marks_cgr : List (String × String × String) :=
  [("s_neighbors", "p_neighbors", "sp_neighbors"),
   ("s_hyb", "p_hyb", "sp_hyb"),
   ("s_charge", "p_charge", "sp_charge"),
   ("s_stereo", "p_stereo", "sp_stereo")]

/-- `CGRContainer._edge_marks`. -/
def edge_marks_cgr : List (String × String × String) :=
  [("s_bond", "p_bond", "sp_bond"), ("s_stereo", "p_stereo", "sp_stereo")]

/-- `CGRContainer._node_sp`. -/
def node_sp : List String :=
  ["s_neighbors", "p_neighbors", "s_hyb", "p_hyb", "s_charge", "p_charge",
   "s_stereo", "p_stereo"] ++ node_base ++ ["p_x", "p_y", "p_z"]

/-- `CGRContainer._edge_sp`. -/
def edge_sp : List String :=
  ["s_bond", "p_bond", "s_stereo", "p_stereo"]

/-! ### `_attr_renew` and `fix_data` -/

/-- Loop body of `MoleculeContainer._attr_renew`: keep each mark that is
present (not `None`), in mark order. -/
def attrRenewMolGo (attr : Attrs) (marks : List String) (acc : Attrs) : Attrs :=
  match marks with
  | [] => acc
  | s :: rest =>
    let ls := pyGet attr s
    attrRenewMolGo attr rest (if ls ≠ PVal.none then attrsSet acc s ls else acc)

/-- `MoleculeContainer._attr_renew(attr, marks)`. -/
def attrRenewMol (attr : Attrs) (marks : List String) : Attrs :=
  attrRenewMolGo attr marks []

/-- Loop body of `CGRContainer._attr_renew` for one `(s, p, sp)` triple. -/
def attrRenewCGRStep (attr : Attrs) (acc : Attrs) (m : String × String × String) : Attrs :=
  let s := m.1
  let p := m.2.1
  let sp := m.2.2
  let ls := pyGet attr s
  let lp := pyGet attr p
  match ls, lp with
  | PVal.lst l, PVal.lst l2 =>
    if l = l2 then
      let v := PVal.lst (pySet l)
      attrsSet (attrsSet (attrsSet acc sp v) s v) p v
    else
      let spv := pySet (((l.zip l2).filter (fun xy => xy.1 != xy.2)).map (fun xy => PVal.tup xy.1 xy.2))
      attrsSet (attrsSet (attrsSet acc sp (PVal.lst spv)) s (PVal.lst (spv.map pairFst)))
        p (PVal.lst (spv.map pairSnd))
  | PVal.lst l, lpv =>
    let spv := pySet ((l.filter (fun x => x != lpv)).map (fun x => PVal.tup x lpv))
    attrsSet (attrsSet (attrsSet acc sp (PVal.lst spv)) s (PVal.lst (spv.map pairFst)))
      p (PVal.lst (spv.map pairSnd))
  | lsv, PVal.lst l2 =>
    let spv := pySet ((l2.filter (fun x => lsv != x)).map (fun x => PVal.tup lsv x))
    attrsSet (attrsSet (attrsSet acc sp (PVal.lst spv)) s (PVal.lst (spv.map pairFst)))
      p (PVal.lst (spv.map pairSnd))
  | lsv, lpv =>
    if lsv ≠ lpv then attrsSet acc sp (PVal.tup lsv lpv)
    else if lsv ≠ PVal.none then attrsSet acc sp lsv
    else acc

/-- `CGRContainer._attr_renew(attr, marks)`. -/
def attrRenewCGR (attr : Attrs) (marks : List (String × String × String)) : Attrs :=
  marks.foldl (attrRenewCGRStep attr) []

/-- One node entry of `fix_data`: renewed when the node bunch is `None`
(meaning all) or contains the node. -/
def renewNodeEntry (renewN : Attrs → Attrs) (nb : Option (Finset Nat))
    (p : Nat × Attrs) : Nat × Attrs :=
  match nb with
  | Option.none => (p.1, renewN p.2)
  | some s => if p.1 ∈ s then (p.1, renewN p.2) else p

/-- One edge entry of `fix_data`: renewed when the edge bunch is `None` or
the edge is incident to it (`g.edges(nbunch=edges_bunch)`). -/
def renewEdgeEntry (renewE : Attrs → Attrs) (eb : Option (Finset Nat))
    (e : Nat × Nat × Attrs) : Nat × Nat × Attrs :=
  match eb with
  | Option.none => (e.1, e.2.1, renewE e.2.2)
  | some s => if e.1 ∈ s ∨ e.2.1 ∈ s then (e.1, e.2.1, renewE e.2.2) else e

/-- `fix_data` on the underlying graph, given the node/edge renewal
functions of the entity kind.  `none` as a bunch means "all", matching the
`None` defaults. -/
def fixDataGraph (renewN renewE : Attrs → Attrs) (g : PyGraph)
    (nodesBunch edgesBunch : Option (Finset Nat)) : PyGraph :=
  { nodes := g.nodes.map (renewNodeEntry renewN nodesBunch),
    edges := g.edges.map (renewEdgeEntry renewE edgesBunch) }

/-- `MoleculeContainer.fix_data` on the graph. -/
def fixDataMolG (g : PyGraph) (nodesBunch edgesBunch : Option (Finset Nat)) : PyGraph :=
  fixDataGraph (fun a => attrRenewMol a node_marks_mol) (fun a => attrRenewMol a edge_s)
    g nodesBunch edgesBunch

/-- `CGRContainer.fix_data` on the graph (inherited `fix_data` body with the
CGR `_attr_renew` and mark tables). -/
def fixDataCGRG (g : PyGraph) (nodesBunch edgesBunch : Option (Finset Nat)) : PyGraph :=
  fixDataGraph (fun a => attrRenewCGR a node_marks_cgr) (fun a => attrRenewCGR a edge_marks_cgr)
    g nodesBunch edgesBunch

/-- `fix_data` dispatching on the dynamic class of the container. -/
def Container.fixData (c : Container) (nodesBunch edgesBunch : Option (Finset Nat)) : Container :=
  match c.kind with
  | Kind.molecule => { c with graph := fixDataMolG c.graph nodesBunch edgesBunch }
  | Kind.cgr => { c with graph := fixDataCGRG c.graph nodesBunch edgesBunch }

/-! ### `add_atom` / `add_bond` -/

/-- `max(self, default=0)`. -/
def maxId (g : PyGraph) : Nat :=
  g.nodeIds.foldl max 0

/-- The node attribute dictionary written by `MoleculeContainer.add_atom`. -/
def molAtomAttrs (element : String) (s_charge : Int) (mark : String)
    (x y z : Int) (m : Nat) : Attrs :=
  [("element", PVal.str element), ("s_charge", PVal.int s_charge),
   ("mark", PVal.str mark), ("s_x", PVal.int x), ("s_y", PVal.int y),
   ("s_z", PVal.int z), ("map", PVal.int (Int.ofNat m))]

/-- `MoleculeContainer.add_atom(element, s_charge, _map, mark, x, y, z)`. -/
def addAtomMol (c : Container) (element : String) (s_charge : Int) (map? : Option Nat)
    (mark : String) (x y z : Int) : Except String Container :=
  match map? with
  | Option.none =>
    let m := maxId c.graph + 1
    let g2 := c.graph.addNode m (molAtomAttrs element s_charge mark x y z m)
    Except.ok { c with graph := g2 }
  | some m =>
    if m ∈ c.graph.nodeIds then Except.error "mapping exists"
    else
      let g2 := c.graph.addNode m (molAtomAttrs element s_charge mark x y z m)
      Except.ok { c with graph := g2 }

/-- The node attribute dictionary written by `CGRContainer.add_atom`. -/
def cgrAtomAttrs (element : String) (s_charge p_charge : Int) (mark : String)
    (s_x s_y s_z p_x p_y p_z : Int) (m : Nat) : Attrs :=
  [("element", PVal.str element), ("s_charge", PVal.int s_charge),
   ("p_charge", PVal.int p_charge), ("mark", PVal.str mark),
   ("s_x", PVal.int s_x), ("s_y", PVal.int s_y), ("s_z", PVal.int s_z),
   ("p_x", PVal.int p_x), ("p_y", PVal.int p_y), ("p_z", PVal.int p_z),
   ("map", PVal.int (Int.ofNat m))]

/-- `CGRContainer.add_atom`: product-side charge and coordinates default to
the reagent-side values when omitted. -/
def addAtomCGR (c : Container) (element : String) (s_charge : Int) (p_charge : Option Int)
    (map? : Option Nat) (mark : String) (s_x s_y s_z : Int)
    (p_x p_y p_z : Option Int) : Except String Container :=
  let pc := p_charge.getD s_charge
  let px := p_x.getD s_x
  let py := p_y.getD s_y
  let pz := p_z.getD s_z
  match map? with
  | Option.none =>
    let m := maxId c.graph + 1
    let g2 := c.graph.addNode m (cgrAtomAttrs element s_charge pc mark s_x s_y s_z px py pz m)
    Except.ok { c with graph := g2 }
  | some m =>
    if m ∈ c.graph.nodeIds then Except.error "mapping exists"
    else
      let g2 := c.graph.addNode m (cgrAtomAttrs element s_charge pc mark s_x s_y s_z px py pz m)
      Except.ok { c with graph := g2 }

/-- `MoleculeContainer.add_bond(atom1, atom2, mark)`. -/
def addBondMol (c : Container) (atom1 atom2 : Nat) (mark : PVal) : Except String Container :=
  if atom1 ∉ c.graph.nodeIds ∨ atom2 ∉ c.graph.nodeIds then Except.error "atoms not found"
  else if !pyTruthy mark then Except.error "no bond data"
  else Except.ok { c with graph := c.graph.addEdge atom1 atom2 [("s_bond", mark)] }

/-- `CGRContainer.add_bond(atom1, atom2, s_mark, p_mark)`: each side is stored
only when truthy; at least one is required. -/
def addBondCGR (c : Container) (atom1 atom2 : Nat) (s_mark p_mark : PVal) : Except String Container :=
  if atom1 ∉ c.graph.nodeIds ∨ atom2 ∉ c.graph.nodeIds then Except.error "atoms not found"
  else
    let attr : Attrs :=
      (if pyTruthy s_mark then [("s_bond", s_mark)] else []) ++
      (if pyTruthy p_mark then [("p_bond", p_mark)] else [])
    if attr.isEmpty then Except.error "no bonds data"
    else Except.ok { c with graph := c.graph.addEdge atom1 atom2 attr }

/-! ### `reset_query_marks` -/

/-- One hybridization update of `reset_query_marks` for one incident bond:
order 1 or undefined is skipped, an already terminal state (3 or 4) is kept,
aromatic (4) forces 4, triple (3) or a second double (2) forces 3, and a
single double bond sets 2. -/
def hybUpdate (h : Nat) (bType : PVal) : Nat :=
  if bType == PVal.int 1 || bType == PVal.none || h == 3 || h == 4 then h
  else if bType == PVal.int 4 then 4
  else if bType == PVal.int 3 || (bType == PVal.int 2 && h == 2) then 3
  else if bType == PVal.int 2 && h != 3 then 2
  else h

/-- The hybridization fold over the incident bond orders of one atom, in
adjacency order. -/
def hybFold (bs : List PVal) (h : Nat) : Nat :=
  bs.foldl hybUpdate h

/-- One iteration of the inner neighbor loop of `reset_query_marks`: a
truthy bond to a non-hydrogen increments the neighbor count, and the
hybridization state is folded with `hybUpdate`.
`g.nodes[node]['element']` is assumed present, as in every graph the source
builds. -/
def qmStep (g : PyGraph) (b : String) (hn : Nat × Nat) (p : Nat × Attrs) : Nat × Nat :=
  let bType := pyGet p.2 b
  let n2 := if pyTruthy bType && !(pyGet (g.nodeAttrs p.1) "element" == PVal.str "H")
            then hn.2 + 1 else hn.2
  (hybUpdate hn.1 bType, n2)

/-- The inner neighbor loop of `reset_query_marks` for one state channel:
returns `(label[h], label[n])` computed from the adjacency of atom `i`,
reading bond mark `b`. -/
def qmChannel (g : PyGraph) (i : Nat) (b : String) : Nat × Nat :=
  (g.adj i).foldl (qmStep g b) (1, 0)

/-- `MoleculeContainer.reset_query_marks` on the graph: note that the label
dictionary also writes `p_hyb = 1` and `p_neighbors = 0` onto every atom of a
plain molecule.  The in-place node updates never touch the `element` key the
loop reads, so a simultaneous map is equivalent to the sequential mutation. -/
def resetQueryMarksMolG (g : PyGraph) : PyGraph :=
  { g with nodes := g.nodes.map (fun p =>
      let hn := qmChannel g p.1 "s_bond"
      (p.1, attrsUpdate p.2
        [("s_hyb", PVal.int (Int.ofNat hn.1)), ("p_hyb", PVal.int 1),
         ("s_neighbors", PVal.int (Int.ofNat hn.2)), ("p_neighbors", PVal.int 0)])) }

/-- `CGRContainer.reset_query_marks` on the graph: both channels are folded
independently, then the combined `sp_*` marks are the shared value or the
`(s, p)` pair. -/
def resetQueryMarksCGRG (g : PyGraph) : PyGraph :=
  { g with nodes := g.nodes.map (fun p =>
      let s := qmChannel g p.1 "s_bond"
      let t := qmChannel g p.1 "p_bond"
      let sphyb := if s.1 ≠ t.1 then PVal.tup (PVal.int (Int.ofNat s.1)) (PVal.int (Int.ofNat t.1))
                   else PVal.int (Int.ofNat s.1)
      let spnb := if s.2 ≠ t.2 then PVal.tup (PVal.int (Int.ofNat s.2)) (PVal.int (Int.ofNat t.2))
                  else PVal.int (Int.ofNat s.2)
      (p.1, attrsUpdate p.2
        [("s_hyb", PVal.int (Int.ofNat s.1)), ("p_hyb", PVal.int (Int.ofNat t.1)),
         ("sp_hyb", sphyb),
         ("s_neighbors", PVal.int (Int.ofNat s.2)), ("p_neighbors", PVal.int (Int.ofNat t.2)),
         ("sp_neighbors", spnb)])) }

/-- `reset_query_marks` dispatching on the dynamic class. -/
def Container.resetQueryMarks (c : Container) : Container :=
  match c.kind with
  | Kind.molecule => { c with graph := resetQueryMarksMolG c.graph }
  | Kind.cgr => { c with graph := resetQueryMarksCGRG c.graph }

/-! ### `pickle` / `unpickle` -/

/-- The JSON-serializable document produced by `pickle`: the filtered graph
(the external `node_link_data`/`node_link_graph` codec is treated as a
faithful inverse pair), the meta dictionary, and the `s_only` kind flag. -/
structure PickleData where
  graph : PyGraph
  s_only : Bool
  meta : Attrs
deriving DecidableEq

/-- `MoleculeContainer.pickle`: keep only the schema-appropriate node and
edge keys (`_node_s`/`_edge_s` for a molecule, `_node_sp`/`_edge_sp` for a
CGR). -/
def Container.pickle (c : Container) : PickleData :=
  let nm := match c.kind with | Kind.cgr => node_sp | Kind.molecule => node_s
  let em := match c.kind with | Kind.cgr => edge_sp | Kind.molecule => edge_s
  { graph := { nodes := c.graph.nodes.map (fun p => (p.1, p.2.filter (fun kv => nm.contains kv.1))),
               edges := c.graph.edges.map (fun e => (e.1, e.2.1, e.2.2.filter (fun kv => em.contains kv.1))) },
    s_only := match c.kind with | Kind.cgr => false | Kind.molecule => true,
    meta := c.meta }

/-- `MoleculeContainer.unpickle`: rebuild the graph, choose the class from
`s_only`, run `fix_data()` on everything, then merge the meta. -/
def Container.unpickle (d : PickleData) : Container :=
  let kind := if d.s_only then Kind.molecule else Kind.cgr
  let c : Container := { kind := kind, graph := d.graph, meta := [] }
  let c2 := c.fixData Option.none Option.none
  { c2 with meta := attrsUpdate c2.meta d.meta }

/-! ### `CGRcore.union` -/

/-- `u.add_nodes_from(ns)`. -/
def addNodesFrom (g : PyGraph) (ns : List (Nat × Attrs)) : PyGraph :=
  ns.foldl (fun gg p => gg.addNode p.1 p.2) g

/-- `u.add_edges_from(es)`. -/
def addEdgesFrom (g : PyGraph) (es : List (Nat × Nat × Attrs)) : PyGraph :=
  es.foldl (fun gg e => gg.addEdge e.1 e.2.1 e.2.2) g

/-- `CGRcore.union(m1, m2)`: fails on a non-disjoint id set; otherwise a
fresh container (CGR if either input is a CGR) receiving all nodes then all
edges of both inputs. -/
def union (m1 m2 : Container) : Except String Container :=
  if (m1.graph.nodeIds.toFinset ∩ m2.graph.nodeIds.toFinset).Nonempty then
    Except.error "The node sets of m1 and m2 are not disjoint."
  else
    let kind := if m1.kind = Kind.cgr ∨ m2.kind = Kind.cgr then Kind.cgr else Kind.molecule
    let u0 : PyGraph := { nodes := [], edges := [] }
    let u1 := addNodesFrom u0 m1.graph.nodes
    let u2 := addNodesFrom u1 m2.graph.nodes
    let u3 := addEdgesFrom u2 m1.graph.edges
    let u4 := addEdgesFrom u3 m2.graph.edges
    Except.ok { kind := kind, graph := u4, meta := [] }

/-! ### `CGRContainer.get_center_atoms` -/

/-- `get_center_atoms`: atoms whose `s_charge`/`p_charge` differ, together
with the endpoints of every edge whose `s_bond`/`p_bond` differ.  The source
returns `list(nodes)` of a Python set; the set itself is the model. -/
def getCenterAtoms (g : PyGraph) : Finset Nat :=
  ((g.nodes.filter (fun p => pyGet p.2 "s_charge" != pyGet p.2 "p_charge")).map (fun p => p.1)
    ++ (g.edges.filter (fun e => pyGet e.2.2 "s_bond" != pyGet e.2.2 "p_bond")).flatMap
        (fun e => [e.1, e.2.1])).toFinset

/-! ### `get_environment` -/

/-- One expansion step: `set(chain.from_iterable(self.edges(nodes[i])))`,
the endpoints of the edges incident to the current set. -/
def envStep (g : PyGraph) (s : Finset Nat) : Finset Nat :=
  ((edgesIncident g s).flatMap (fun e => [e.1, e.2.1])).toFinset

/-- The expansion loop of `get_environment`: `seen ++ [cur]` is the Python
list `nodes` (so `cur` is `nodes[i]`), and the loop breaks when the step
yields an empty set or a set already in the list; the result is
`nodes[-1]`. -/
def envLoop (g : PyGraph) (seen : List (Finset Nat)) (cur : Finset Nat) : Nat → Finset Nat
  | 0 => cur
  | fuel + 1 =>
    let n := envStep g cur
    if n = ∅ ∨ n ∈ seen ++ [cur] then cur
    else envLoop g (seen ++ [cur]) n fuel

/-- The final node set of `get_environment(atoms, deep)` (the `dante=False`
path returns its induced subgraph). -/
def envNodes (g : PyGraph) (atoms : Finset Nat) (deep : Nat) : Finset Nat :=
  envLoop g [] atoms deep

/-- `get_environment(atoms, dante=False, deep)`. -/
def getEnvironment (g : PyGraph) (atoms : Finset Nat) (deep : Nat) : PyGraph :=
  subgraphOn g (envNodes g atoms deep)

/-- The full list `nodes` built by the loop, used by the `dante=True` path. -/
def envLoopList (g : PyGraph) (seen : List (Finset Nat)) (cur : Finset Nat) :
    Nat → List (Finset Nat)
  | 0 => seen ++ [cur]
  | fuel + 1 =>
    let n := envStep g cur
    if n = ∅ ∨ n ∈ seen ++ [cur] then seen ++ [cur]
    else envLoopList g (seen ++ [cur]) n fuel

/-- `get_environment(atoms, dante=True, deep)`: one subgraph per circle. -/
def getEnvironmentDante (g : PyGraph) (atoms : Finset Nat) (deep : Nat) : List PyGraph :=
  (envLoopList g [] atoms deep).map (subgraphOn g)

/-! ### `CGRcore.compose` -/

/-- One role of `CGRcore.__popdict`. -/
structure PopDict where
  edge : String
  stereoKey : String
  node : List String
  ext_node : List String

/-- `__popdict['reagents']`. -/
def popdictReagents : PopDict :=
  { edge := "s_bond", stereoKey := "s",
    node := ["s_charge", "s_neighbors", "s_hyb", "s_x", "s_y", "s_z"],
    ext_node := ["p_neighbors", "p_hyb", "sp_neighbors", "sp_hyb"] }

/-- `__popdict['products']`. -/
def popdictProducts : PopDict :=
  { edge := "p_bond", stereoKey := "p",
    node := ["p_charge", "p_neighbors", "p_hyb", "p_x", "p_y", "p_z",
             "mark", "element", "map"],
    ext_node := ["s_neighbors", "s_hyb", "sp_neighbors", "sp_hyb"] }

/-- The `AttributeError` raised by every `g.stereo` access in `compose`:
neither container class nor networkx `Graph` defines a `stereo` attribute. -/
def stereoAttrErr : String :=
  "AttributeError: object has no attribute stereo"

/-- The shared atom-id space of the two `compose` arguments
(`set(m1).intersection(m2)`). -/
def composeCommon (m1 m2 : Container) : Finset Nat :=
  m1.graph.nodeIds.toFinset ∩ m2.graph.nodeIds.toFinset

/-- Loop body of `compose`'s first edge loop (edges touching a common atom):
both endpoints join `ext_common`; a truthy role bond is copied onto the
result edge, after which the source reads `g.stereo` and dies with an
`AttributeError` (the partial mutation of `h` is unobservable, so it is
dropped here). -/
def composeStep1 (pop : String) (st : PyGraph × Finset Nat) (e : Nat × Nat × Attrs) :
    Except String (PyGraph × Finset Nat) :=
  let ext2 := insert e.2.1 (insert e.1 st.2)
  let bond := pyGet e.2.2 pop
  if pyTruthy bond then Except.error stereoAttrErr
  else Except.ok (st.1, ext2)

/-- Loop body of `compose`'s second edge loop (edges of purely role-local
atoms): the source copies the edge onto `h` and then reads `g.stereo`, so
every iteration raises the `AttributeError`. -/
def composeStep2 (st : PyGraph) (e : Nat × Nat × Attrs) : Except String PyGraph :=
  let _ := st.addEdge e.1 e.2.1 e.2.2
  Except.error stereoAttrErr

/-- The three node-copying loops of one `compose` role: common atoms get
only this role's exclusive keys, boundary atoms everything except the
opposite role's query marks, role-local atoms everything. -/
def composeNodes (g : PyGraph) (pdi : PopDict) (common uniq ext : Finset Nat)
    (h : PyGraph) : PyGraph :=
  let h3 := (common.sort (· ≤ ·)).foldl (fun hh n =>
    hh.addNode n ((g.nodeAttrs n).filter (fun kv => pdi.node.contains kv.1))) h
  let h4 := ((ext \ common).sort (· ≤ ·)).foldl (fun hh n =>
    hh.addNode n ((g.nodeAttrs n).filter (fun kv => !(pdi.ext_node.contains kv.1)))) h3
  (uniq.sort (· ≤ ·)).foldl (fun hh n => hh.addNode n (g.nodeAttrs n)) h4

/-- One role of `compose` (the body of `for i, g in (('reagents', m1),
('products', m2))`), returning the updated result graph and this role's
`ext_common`. -/
def composeRole (g : PyGraph) (pdi : PopDict) (common : Finset Nat) (h : PyGraph) :
    Except String (PyGraph × Finset Nat) :=
  match (edgesIncident g common).foldlM (composeStep1 pdi.edge) (h, common) with
  | Except.error msg => Except.error msg
  | Except.ok st =>
    let uniq := g.nodeIds.toFinset \ st.2
    match (edgesIncident g uniq).foldlM composeStep2 st.1 with
    | Except.error msg => Except.error msg
    | Except.ok h2 => Except.ok (composeNodes g pdi common uniq st.2 h2, st.2)

/-- `CGRcore.compose(m1, m2)`: reagents role, then products role, then
`fix_data` restricted to the accumulated extended-common nodes and the
common-incident edges.  `new_stereo` is necessarily empty whenever this
point is reached (its staging lines sit behind the fatal `g.stereo` reads),
and `add_stereo` is a no-op in any case. -/
def compose (m1 m2 : Container) : Except String Container :=
  let common := composeCommon m1 m2
  match composeRole m1.graph popdictReagents common { nodes := [], edges := [] } with
  | Except.error msg => Except.error msg
  | Except.ok st1 =>
    match composeRole m2.graph popdictProducts common st1.1 with
    | Except.error msg => Except.error msg
    | Except.ok st2 =>
      let extended := st1.2 ∪ st2.2
      Except.ok { kind := Kind.cgr,
                  graph := fixDataCGRG st2.1 (some extended) (some common),
                  meta := [] }

/-! ### Concrete instances used by the analysis of individual claims -/

/-- Reagents graph of the spec's compose scenario: atoms 1, 2, 3 and an
`s_bond=1` edge between 1 and 2 that is absent in the products. -/
def c1Reagents : Container :=
  { kind := Kind.molecule,
    graph := { nodes := [(1, [("element", PVal.str "C"), ("s_charge", PVal.int 0)]),
                         (2, [("element", PVal.str "C"), ("s_charge", PVal.int 0)]),
                         (3, [("element", PVal.str "C"), ("s_charge", PVal.int 0)])],
               edges := [(1, 2, [("s_bond", PVal.int 1)])] },
    meta := [] }

/-- Products graph of the spec's compose scenario: the same three atoms and
a `p_bond=2` edge between 2 and 3 that is absent in the reagents. -/
def c1Products : Container :=
  { kind := Kind.molecule,
    graph := { nodes := [(1, [("element", PVal.str "C"), ("s_charge", PVal.int 0)]),
                         (2, [("element", PVal.str "C"), ("s_charge", PVal.int 0)]),
                         (3, [("element", PVal.str "C"), ("s_charge", PVal.int 0)])],
               edges := [(2, 3, [("p_bond", PVal.int 2)])] },
    meta := [] }

/-- A molecule built only from schema-visible node keys. -/
def molRT : Container :=
  { kind := Kind.molecule,
    graph := { nodes := [(1, [("element", PVal.str "C"), ("s_charge", PVal.int 0),
                              ("mark", PVal.str "0"), ("s_x", PVal.int 0),
                              ("s_y", PVal.int 0), ("s_z", PVal.int 0)])],
               edges := [] },
    meta := [] }

/-- A CGR entity with one atom carrying equal scalar charges. -/
def cgrFD : Container :=
  { kind := Kind.cgr,
    graph := { nodes := [(1, [("element", PVal.str "C"), ("s_charge", PVal.int 0),
                              ("p_charge", PVal.int 0)])],
               edges := [] },
    meta := [] }

/-- The CGR produced by `add_atom('C', 0)` on an empty `CGRContainer`. -/
def cgrC5 : Container :=
  { kind := Kind.cgr,
    graph := { nodes := [(1, cgrAtomAttrs "C" 0 0 "0" 0 0 0 0 0 0 1)], edges := [] },
    meta := [] }

/-- A one-atom molecule used to exhibit the `p_hyb` write of
`MoleculeContainer.reset_query_marks`. -/
def molC5 : Container :=
  { kind := Kind.molecule,
    graph := { nodes := [(1, molAtomAttrs "C" 0 "0" 0 0 0 1)], edges := [] },
    meta := [] }

/-- Carbon skeleton for the hybridization order test. -/
def hybNodes : List (Nat × Attrs) :=
  [(1, [("element", PVal.str "C"), ("s_charge", PVal.int 0)]),
   (2, [("element", PVal.str "C"), ("s_charge", PVal.int 0)]),
   (3, [("element", PVal.str "C"), ("s_charge", PVal.int 0)])]

/-- Atom 1 with a triple bond added before an aromatic bond. -/
def gHybTripleFirst : PyGraph :=
  { nodes := hybNodes,
    edges := [(1, 2, [("s_bond", PVal.int 3)]), (1, 3, [("s_bond", PVal.int 4)])] }

/-- Atom 1 with the same two bonds added in the opposite order. -/
def gHybAromaticFirst : PyGraph :=
  { nodes := hybNodes,
    edges := [(1, 3, [("s_bond", PVal.int 4)]), (1, 2, [("s_bond", PVal.int 3)])] }

/-- A two-atom connected component: atoms 1 and 2 joined by one bond. -/
def gTwoAtom : PyGraph :=
  { nodes := [(1, [("element", PVal.str "C")]), (2, [("element", PVal.str "O")])],
    edges := [(1, 2, [("s_bond", PVal.int 1)])] }

/-- Atoms 1 and 2 bonded, atom 3 isolated. -/
def gIso : PyGraph :=
  { nodes := [(1, [("element", PVal.str "C")]), (2, [("element", PVal.str "C")]),
              (3, [("element", PVal.str "N")])],
    edges := [(1, 2, [("s_bond", PVal.int 1)])] }

/-- Atoms 4 and 5 bonded, atom 6 isolated (witness graph for the
isolated-core-atom property). -/
def gIsoW : PyGraph :=
  { nodes := [(4, [("element", PVal.str "C")]), (5, [("element", PVal.str "C")]),
              (6, [("element", PVal.str "N")])],
    edges := [(4, 5, [("s_bond", PVal.int 1)])] }

/-- A two-atom molecule on ids 1, 2 (union witness input). -/
def unionA : Container :=
  { kind := Kind.molecule,
    graph := { nodes := [(1, [("element", PVal.str "C"), ("s_charge", PVal.int 0)]),
                         (2, [("element", PVal.str "O"), ("s_charge", PVal.int (-1))])],
               edges := [(1, 2, [("s_bond", PVal.int 1)])] },
    meta := [] }

/-- A one-atom CGR on id 7 (union witness input). -/
def unionB : Container :=
  { kind := Kind.cgr,
    graph := { nodes := [(7, [("element", PVal.str "N"), ("s_charge", PVal.int 1),
                              ("p_charge", PVal.int 0)])],
               edges := [] },
    meta := [] }

/-! ### Predicates and auxiliary sets used in claim statements -/

/-- Every node of the graph carries both charge marks (not `None`). -/
def chargesBoth (g : PyGraph) : Prop :=
  ∀ p ∈ g.nodes, pyGet p.2 "s_charge" ≠ PVal.none ∧ pyGet p.2 "p_charge" ≠ PVal.none

/-- Bond orders that leave the hybridization state unchanged
(order 1 or undefined). -/
def hybInert (bs : List PVal) : Prop :=
  ∀ b ∈ bs, b = PVal.int 1 ∨ b = PVal.none

/-- The `ext_common` accumulation performed by `compose`'s first edge loop. -/
def extFold (init : Finset Nat) (es : List (Nat × Nat × Attrs)) : Finset Nat :=
  es.foldl (fun s e => insert e.2.1 (insert e.1 s)) init

/-- `common` plus every endpoint of an edge incident to `common`. -/
def extCommonOf (g : PyGraph) (common : Finset Nat) : Finset Nat :=
  extFold common (edgesIncident g common)

/-- The atoms of one role's graph outside its extended-common set
(`set(g).difference(ext_common)`). -/
def uniqFinset (g : PyGraph) (common : Finset Nat) : Finset Nat :=
  g.nodeIds.toFinset \ extCommonOf g common

/-- The condition under which one role of `compose` executes a `g.stereo`
read: some edge incident to a common atom carries a truthy role bond mark,
or some role-local (non-common-adjacent) atom has an incident edge. -/
def roleRaisesCond (g : PyGraph) (pop : String) (common : Finset Nat) : Prop :=
  (∃ e ∈ edgesIncident g common, pyTruthy (pyGet e.2.2 pop) = true) ∨
  (∃ a ∈ g.nodeIds, a ∉ extCommonOf g common ∧ ∃ e ∈ g.edges, e.1 = a ∨ e.2.1 = a)

/-- The container produced by `add_atom('O', 1, _map=5)` on `cgrFD`. -/
def cgrC5W : Container :=
  { kind := Kind.cgr,
    graph := { nodes := [(1, [("element", PVal.str "C"), ("s_charge", PVal.int 0),
                              ("p_charge", PVal.int 0)]),
                         (5, cgrAtomAttrs "O" 1 1 "0" 0 0 0 0 0 0 5)],
               edges := [] },
    meta := [] }

/-! ## Helper lemmas -/

theorem pyGet_nil (k : String) : pyGet [] k = PVal.none := rfl

theorem find?_map_set_self (a : Attrs) (k : String) (v : PVal)
    (hany : a.any (fun kv => kv.1 == k) = true) :
    (a.map (fun kv => if kv.1 == k then (k, v) else kv)).find? (fun kv => kv.1 == k)
      = some (k, v) := by
  induction a with
  | nil => simp at hany
  | cons kv rest ih =>
    rw [List.map_cons]
    by_cases h : (kv.1 == k) = true
    · rw [if_pos h]
      exact List.find?_cons_of_pos _ (by simp)
    · rw [if_neg h, List.find?_cons_of_neg _ (by simpa using h)]
      apply ih
      rcases List.any_eq_true.1 hany with ⟨x, hx, hpx⟩
      rcases List.mem_cons.1 hx with hx1 | hx1
      · subst hx1; exact absurd hpx h
      · exact List.any_eq_true.2 ⟨x, hx1, hpx⟩

theorem find?_map_set_other (a : Attrs) (k k2 : String) (v : PVal) (hne : k2 ≠ k) :
    (a.map (fun kv => if kv.1 == k then (k, v) else kv)).find? (fun kv => kv.1 == k2)
      = a.find? (fun kv => kv.1 == k2) := by
  induction a with
  | nil => rfl
  | cons kv rest ih =>
    rw [List.map_cons]
    by_cases h : (kv.1 == k) = true
    · rw [if_pos h]
      have hkk2 : ((k, v).1 == k2) = false := by
        simp only [beq_eq_false_iff_ne, ne_eq]
        exact fun hc => hne hc.symm
      have hkv : (kv.1 == k2) = false := by
        simp only [beq_eq_false_iff_ne, ne_eq]
        intro hc
        exact hne (hc.symm.trans (beq_iff_eq.1 h))
      rw [List.find?_cons_of_neg _ (by simp [hkk2]), List.find?_cons_of_neg _ (by simp [hkv])]
      exact ih
    · rw [if_neg h]
      by_cases h2 : (kv.1 == k2) = true
      · simp only [List.find?_cons, h2]
      · rw [List.find?_cons_of_neg _ (by simpa using h2),
            List.find?_cons_of_neg _ (by simpa using h2)]
        exact ih

theorem pyGet_attrsSet (a : Attrs) (k k2 : String) (v : PVal) :
    pyGet (attrsSet a k v) k2 = if k2 = k then v else pyGet a k2 := by
  unfold attrsSet
  by_cases hany : a.any (fun kv => kv.1 == k) = true
  · rw [if_pos hany]
    by_cases hk : k2 = k
    · subst hk
      unfold pyGet
      rw [find?_map_set_self a k2 v hany, if_pos rfl]
    · unfold pyGet
      rw [find?_map_set_other a k k2 v hk, if_neg hk]
  · rw [if_neg hany]
    have hnone : a.find? (fun kv => kv.1 == k) = Option.none := by
      rw [List.find?_eq_none]
      intro x hx hpx
      exact hany (List.any_eq_true.2 ⟨x, hx, hpx⟩)
    unfold pyGet
    rw [List.find?_append]
    by_cases hk : k2 = k
    · subst hk
      rw [hnone]
      simp [List.find?]
    · have h2 : (([(k, v)] : Attrs).find? (fun kv => kv.1 == k2)) = Option.none := by
        simp only [List.find?]
        have : ((k, v).1 == k2) = false := by
          simp only [beq_eq_false_iff_ne, ne_eq]
          exact fun hc => hk hc.symm
        rw [this]
      rw [h2, Option.or_none, if_neg hk]

theorem pyGet_attrRenewMolGo (attr : Attrs) (ms : List String) (acc : Attrs) (k : String) :
    pyGet (attrRenewMolGo attr ms acc) k =
      if k ∈ ms ∧ pyGet attr k ≠ PVal.none then pyGet attr k else pyGet acc k := by
  induction ms generalizing acc with
  | nil => simp [attrRenewMolGo]
  | cons s rest ih =>
    simp only [attrRenewMolGo]
    by_cases hv : pyGet attr s = PVal.none
    · rw [if_neg (not_not_intro hv), ih]
      by_cases hcond : k ∈ rest ∧ pyGet attr k ≠ PVal.none
      · rw [if_pos hcond, if_pos ⟨List.mem_cons_of_mem s hcond.1, hcond.2⟩]
      · rw [if_neg hcond]
        have houter : ¬(k ∈ s :: rest ∧ pyGet attr k ≠ PVal.none) := by
          intro hc
          rcases List.mem_cons.1 hc.1 with h1 | h1
          · subst h1; exact hc.2 hv
          · exact hcond ⟨h1, hc.2⟩
        rw [if_neg houter]
    · rw [if_pos hv, ih]
      by_cases hcond : k ∈ rest ∧ pyGet attr k ≠ PVal.none
      · rw [if_pos hcond, if_pos ⟨List.mem_cons_of_mem s hcond.1, hcond.2⟩]
      · rw [if_neg hcond, pyGet_attrsSet]
        by_cases hks : k = s
        · subst hks
          rw [if_pos rfl, if_pos ⟨List.mem_cons_self k rest, hv⟩]
        · rw [if_neg hks]
          have houter : ¬(k ∈ s :: rest ∧ pyGet attr k ≠ PVal.none) := by
            intro hc
            rcases List.mem_cons.1 hc.1 with h1 | h1
            · exact hks h1
            · exact hcond ⟨h1, hc.2⟩
          rw [if_neg houter]

theorem attrRenewMolGo_congr (a1 a2 : Attrs) (ms : List String) (acc : Attrs)
    (h : ∀ k ∈ ms, pyGet a1 k = pyGet a2 k) :
    attrRenewMolGo a1 ms acc = attrRenewMolGo a2 ms acc := by
  induction ms generalizing acc with
  | nil => rfl
  | cons s rest ih =>
    simp only [attrRenewMolGo]
    rw [h s (List.mem_cons_self s rest)]
    exact ih _ (fun k hk => h k (List.mem_cons_of_mem s hk))

theorem attrRenewMol_idem (attr : Attrs) (ms : List String) :
    attrRenewMol (attrRenewMol attr ms) ms = attrRenewMol attr ms := by
  unfold attrRenewMol
  apply attrRenewMolGo_congr
  intro k hk
  rw [pyGet_attrRenewMolGo]
  by_cases hv : pyGet attr k ≠ PVal.none
  · rw [if_pos ⟨hk, hv⟩]
  · rw [if_neg (fun hc => hv hc.2), pyGet_nil]
    rw [not_not] at hv
    exact hv.symm

theorem renewNodeEntry_idem (r : Attrs → Attrs) (nb : Option (Finset Nat))
    (hr : ∀ a, r (r a) = r a) (p : Nat × Attrs) :
    renewNodeEntry r nb (renewNodeEntry r nb p) = renewNodeEntry r nb p := by
  cases nb with
  | none => simp [renewNodeEntry, hr]
  | some s =>
    by_cases hp : p.1 ∈ s
    · simp [renewNodeEntry, hp, hr]
    · simp [renewNodeEntry, hp]

theorem renewEdgeEntry_idem (r : Attrs → Attrs) (eb : Option (Finset Nat))
    (hr : ∀ a, r (r a) = r a) (e : Nat × Nat × Attrs) :
    renewEdgeEntry r eb (renewEdgeEntry r eb e) = renewEdgeEntry r eb e := by
  cases eb with
  | none => simp [renewEdgeEntry, hr]
  | some s =>
    by_cases he : e.1 ∈ s ∨ e.2.1 ∈ s
    · simp [renewEdgeEntry, he, hr]
    · simp [renewEdgeEntry, he]

theorem fixDataMolG_idem (g : PyGraph) (nb eb : Option (Finset Nat)) :
    fixDataMolG (fixDataMolG g nb eb) nb eb = fixDataMolG g nb eb := by
  unfold fixDataMolG fixDataGraph
  simp only [PyGraph.mk.injEq, List.map_map]
  constructor
  · exact List.map_congr_left (fun p _ =>
      renewNodeEntry_idem _ nb (fun a => attrRenewMol_idem a node_marks_mol) p)
  · exact List.map_congr_left (fun e _ =>
      renewEdgeEntry_idem _ eb (fun a => attrRenewMol_idem a edge_s) e)

/-! ## Claim theorems -/

/-- C1: the spec's compose bond-union scenario (reagents bond `s_bond=1` on
(1,2) absent in products, products bond `p_bond=2` on (2,3) absent in
reagents, atoms 1,2,3 common) never yields the described CGR: `compose`
raises an `AttributeError` at its first `g.stereo` read instead of
returning. -/
theorem compose_bond_union_scenario_raises :
    compose c1Reagents c1Products = Except.error stereoAttrErr := by rfl

/-- C3: the pickle/unpickle round trip is not attribute-equal on
schema-visible keys: `unpickle` runs `fix_data`, whose molecule mark table
omits the base keys, so the `element` of every atom is dropped. -/
theorem pickle_roundtrip_loses_element :
    pyGet ((Container.unpickle (Container.pickle molRT)).graph.nodeAttrs 1) "element"
        = PVal.none ∧
    pyGet (molRT.graph.nodeAttrs 1) "element" = PVal.str "C" ∧
    Container.unpickle (Container.pickle molRT) ≠ molRT := by decide

/-- C4 (counterexample): `fix_data` is not idempotent on a CGR: the first
application rewrites the equal charge pair to a single `sp_charge` key, and
the second application erases it. -/
theorem fixData_cgr_not_idempotent :
    Container.fixData (Container.fixData cgrFD Option.none Option.none) Option.none Option.none
      ≠ Container.fixData cgrFD Option.none Option.none := by decide

/-- C4 (amended): `fix_data` is idempotent on molecule entities, for every
choice of node and edge bunches; on CGR entities it is not (see the
counterexample). -/
theorem fixData_molecule_idempotent (c : Container) (nb eb : Option (Finset Nat))
    (h : c.kind = Kind.molecule) :
    (c.fixData nb eb).fixData nb eb = c.fixData nb eb := by
  cases c with
  | mk kind graph mta =>
    cases kind with
    | molecule => simp [Container.fixData, fixDataMolG_idem]
    | cgr => exact absurd h (by simp)

/-- C4 witness: the idempotence theorem applied to a concrete molecule. -/
theorem fixData_molecule_idempotent_witness :
    molRT.kind = Kind.molecule ∧
    (molRT.fixData Option.none Option.none).fixData Option.none Option.none
      = molRT.fixData Option.none Option.none :=
  ⟨rfl, fixData_molecule_idempotent molRT Option.none Option.none rfl⟩

theorem hybUpdate_terminal (b : PVal) (h : Nat) (hh : h = 3 ∨ h = 4) :
    hybUpdate h b = h := by
  rcases hh with rfl | rfl <;> simp [hybUpdate]

theorem hybFold_terminal (bs : List PVal) (h : Nat) (hh : h = 3 ∨ h = 4) :
    hybFold bs h = h := by
  induction bs with
  | nil => rfl
  | cons b rest ih =>
    unfold hybFold at ih ⊢
    rw [List.foldl_cons, hybUpdate_terminal b h hh]
    exact ih

theorem hybUpdate_inert (h : Nat) (b : PVal) (hb : b = PVal.int 1 ∨ b = PVal.none) :
    hybUpdate h b = h := by
  rcases hb with rfl | rfl <;> simp [hybUpdate]

theorem hybFold_inert (bs : List PVal) (hbs : hybInert bs) (h : Nat) :
    hybFold bs h = h := by
  induction bs with
  | nil => rfl
  | cons b rest ih =>
    unfold hybFold at ih ⊢
    rw [List.foldl_cons, hybUpdate_inert h b (hbs b (List.mem_cons_self b rest))]
    exact ih (fun x hx => hbs x (List.mem_cons_of_mem b hx))

theorem foldl_qmStep_fst (g : PyGraph) (b : String) (l : List (Nat × Attrs)) :
    ∀ hn : Nat × Nat,
      (l.foldl (qmStep g b) hn).1 = (l.map (fun p => pyGet p.2 b)).foldl hybUpdate hn.1 := by
  induction l with
  | nil => intro hn; rfl
  | cons p rest ih =>
    intro hn
    rw [List.foldl_cons, List.map_cons, List.foldl_cons, ih]
    rfl

theorem qmChannel_fst (g : PyGraph) (i : Nat) (b : String) :
    (qmChannel g i b).1 = hybFold ((g.adj i).map (fun p => pyGet p.2 b)) 1 := by
  unfold qmChannel hybFold
  exact foldl_qmStep_fst g b (g.adj i) (1, 0)

/-- C6 (counterexample): the hybridization derivation of
`reset_query_marks` is not invariant under the iteration order over the
incident bonds; an atom with both a triple (3) and an aromatic (4) bond
derives `s_hyb = 3` when the triple bond is encountered first, not 4 as the
claim states. -/
theorem reset_query_marks_order_dependent :
    pyGet ((resetQueryMarksMolG gHybTripleFirst).nodeAttrs 1) "s_hyb" = PVal.int 3 ∧
    pyGet ((resetQueryMarksMolG gHybAromaticFirst).nodeAttrs 1) "s_hyb" = PVal.int 4 := by
  decide

/-- C6 (amended): the per-channel hybridization of `reset_query_marks` is
the fold `hybFold` over the incident bonds in adjacency order; an already
terminal state (3 or 4) absorbs every later bond, so the fold depends on
the iteration order when triggers for both 3 and 4 occur; with all other
bonds of order 1 or undefined, a single double bond gives 2, a triple
gives 3 and an aromatic bond gives 4. -/
theorem hyb_fold_precedence :
    (∀ (g : PyGraph) (i : Nat) (b : String),
       (qmChannel g i b).1 = hybFold ((g.adj i).map (fun p => pyGet p.2 b)) 1) ∧
    (∀ (bs : List PVal) (h : Nat), h = 3 ∨ h = 4 → hybFold bs h = h) ∧
    (∀ bs, hybInert bs → ∀ h, hybFold bs h = h) ∧
    (∀ l1 l2, hybInert l1 → hybInert l2 → hybFold (l1 ++ PVal.int 2 :: l2) 1 = 2) ∧
    (∀ l1 l2, hybInert l1 → hybFold (l1 ++ PVal.int 3 :: l2) 1 = 3) ∧
    (∀ l1 l2, hybInert l1 → hybFold (l1 ++ PVal.int 4 :: l2) 1 = 4) := by
  refine ⟨qmChannel_fst, hybFold_terminal, hybFold_inert, ?_, ?_, ?_⟩
  · intro l1 l2 h1 h2
    unfold hybFold
    rw [List.foldl_append, List.foldl_cons]
    have e1 : List.foldl hybUpdate 1 l1 = 1 := hybFold_inert l1 h1 1
    rw [e1]
    have e2 : hybUpdate 1 (PVal.int 2) = 2 := by decide
    rw [e2]
    exact hybFold_inert l2 h2 2
  · intro l1 l2 h1
    unfold hybFold
    rw [List.foldl_append, List.foldl_cons]
    have e1 : List.foldl hybUpdate 1 l1 = 1 := hybFold_inert l1 h1 1
    rw [e1]
    have e2 : hybUpdate 1 (PVal.int 3) = 3 := by decide
    rw [e2]
    exact hybFold_terminal l2 3 (Or.inl rfl)
  · intro l1 l2 h1
    unfold hybFold
    rw [List.foldl_append, List.foldl_cons]
    have e1 : List.foldl hybUpdate 1 l1 = 1 := hybFold_inert l1 h1 1
    rw [e1]
    have e2 : hybUpdate 1 (PVal.int 4) = 4 := by decide
    rw [e2]
    exact hybFold_terminal l2 4 (Or.inr rfl)

/-- C6 witness: the amended precedence applied to concrete bond lists. -/
theorem hyb_fold_precedence_witness :
    hybInert [PVal.int 1, PVal.none] ∧
    hybFold ([PVal.int 1, PVal.none] ++ PVal.int 2 :: [PVal.int 1]) 1 = 2 :=
  ⟨by unfold hybInert; decide, hyb_fold_precedence.2.2.2.1 [PVal.int 1, PVal.none] [PVal.int 1]
     (by unfold hybInert; decide) (by unfold hybInert; decide)⟩

/-- C8: membership in `get_center_atoms` is exactly: the atom's
`s_charge`/`p_charge` differ, or it is an endpoint of an edge whose
`s_bond`/`p_bond` differ. -/
theorem mem_getCenterAtoms_iff (g : PyGraph) (n : Nat) :
    n ∈ getCenterAtoms g ↔
      ((∃ p ∈ g.nodes, p.1 = n ∧ pyGet p.2 "s_charge" ≠ pyGet p.2 "p_charge") ∨
       (∃ e ∈ g.edges, pyGet e.2.2 "s_bond" ≠ pyGet e.2.2 "p_bond" ∧
          (n = e.1 ∨ n = e.2.1))) := by
  unfold getCenterAtoms
  simp only [List.mem_toFinset, List.mem_append, List.mem_map, List.mem_filter,
    List.mem_flatMap, bne_iff_ne, ne_eq, List.mem_cons, List.mem_singleton,
    List.not_mem_nil, or_false]
  constructor
  · rintro (⟨p, ⟨hp, hpc⟩, hpn⟩ | ⟨e, ⟨he, hec⟩, hen⟩)
    · exact Or.inl ⟨p, hp, hpn, hpc⟩
    · exact Or.inr ⟨e, he, hec, hen⟩
  · rintro (⟨p, hp, hpn, hpc⟩ | ⟨e, he, hec, hen⟩)
    · exact Or.inl ⟨p, ⟨hp, hpc⟩, hpn⟩
    · exact Or.inr ⟨e, ⟨he, hec⟩, hen⟩

theorem envLoop_two_atom (d : Nat) (acc : List (Finset Nat)) :
    envLoop gTwoAtom acc {1, 2} d = ({1, 2} : Finset Nat) := by
  cases d with
  | zero => rfl
  | succ d2 =>
    have hstep : envStep gTwoAtom {1, 2} = ({1, 2} : Finset Nat) := by decide
    simp only [envLoop, hstep]
    rw [if_pos (Or.inr (List.mem_append_right acc (List.mem_singleton.2 rfl)))]

/-- C9 (counterexample): with core atoms {1,2,3} in a graph whose only edge
joins 1 and 2 (atom 3 isolated), the first expansion step adds no new atom
(it yields {1,2} ⊆ {1,2,3}), yet the expansion does not stop there: the
final node set is {1,2}, not the seed {1,2,3} — the loop only breaks on an
empty or previously-seen set. -/
theorem env_no_new_atoms_still_expands :
    envStep gIso {1, 2, 3} ⊆ ({1, 2, 3} : Finset Nat) ∧
    envNodes gIso {1, 2, 3} 5 ≠ ({1, 2, 3} : Finset Nat) := by decide

/-- C9 (amended): on a two-atom connected component {1,2} with core {1},
`get_environment` with any requested depth ≥ 1 stabilizes after one hop and
returns the full two-atom component subgraph (the loop breaks when a step
yields an empty or previously-produced set; a step that merely drops
isolated atoms does not stop it). -/
theorem env_two_atom_component (deep : Nat) (h : 1 ≤ deep) :
    envNodes gTwoAtom {1} deep = ({1, 2} : Finset Nat) ∧
    getEnvironment gTwoAtom {1} deep = gTwoAtom := by
  obtain ⟨d, rfl⟩ : ∃ d, deep = d + 1 := ⟨deep - 1, (Nat.succ_pred_eq_of_pos h).symm⟩
  have hstep : envStep gTwoAtom {1} = ({1, 2} : Finset Nat) := by decide
  have hcond : ¬(({1, 2} : Finset Nat) = ∅ ∨
      ({1, 2} : Finset Nat) ∈ ([] : List (Finset Nat)) ++ [{1}]) := by decide
  have hfirst : envNodes gTwoAtom {1} (d + 1) = ({1, 2} : Finset Nat) := by
    unfold envNodes
    simp only [envLoop, hstep]
    rw [if_neg hcond]
    exact envLoop_two_atom d ([] ++ [{1}])
  refine ⟨hfirst, ?_⟩
  unfold getEnvironment
  rw [hfirst]
  decide

/-- C9 witness: the two-atom environment theorem applied at depth 5. -/
theorem env_two_atom_component_witness :
    1 ≤ 5 ∧ envNodes gTwoAtom {1} 5 = ({1, 2} : Finset Nat) :=
  ⟨by decide, (env_two_atom_component 5 (by decide)).1⟩

theorem not_mem_envStep_of_isolated (g : PyGraph) (c : Nat)
    (hiso : ∀ e ∈ g.edges, e.1 ≠ c ∧ e.2.1 ≠ c) (S : Finset Nat) :
    c ∉ envStep g S := by
  unfold envStep
  rw [List.mem_toFinset, List.mem_flatMap]
  rintro ⟨e, he, hc⟩
  have he2 : e ∈ g.edges := (List.mem_filter.1 he).1
  rcases List.mem_cons.1 hc with h1 | h1
  · exact (hiso e he2).1 h1.symm
  · rw [List.mem_singleton] at h1
    exact (hiso e he2).2 h1.symm

theorem envLoop_avoid (g : PyGraph) (c : Nat)
    (hiso : ∀ e ∈ g.edges, e.1 ≠ c ∧ e.2.1 ≠ c) :
    ∀ (fuel : Nat) (acc : List (Finset Nat)) (cur : Finset Nat),
      c ∉ cur → c ∉ envLoop g acc cur fuel := by
  intro fuel
  induction fuel with
  | zero => intro acc cur hc; exact hc
  | succ f ih =>
    intro acc cur hc
    simp only [envLoop]
    by_cases hcond : envStep g cur = ∅ ∨ envStep g cur ∈ acc ++ [cur]
    · rw [if_pos hcond]; exact hc
    · rw [if_neg hcond]
      exact ih _ _ (not_mem_envStep_of_isolated g c hiso cur)

/-- C10: with `dante` false and depth ≥ 1, a core atom `c` with no incident
edge is dropped from the result of `get_environment` whenever some other
core atom has an incident edge: each expansion step replaces the node set
with edge endpoints, so the edgeless atom never reappears. -/
theorem env_isolated_core_dropped (g : PyGraph) (core : Finset Nat) (c : Nat) (deep : Nat)
    (hc : c ∈ core)
    (hiso : ∀ e ∈ g.edges, e.1 ≠ c ∧ e.2.1 ≠ c)
    (hconn : ∃ a ∈ core, ∃ e ∈ g.edges, e.1 = a ∨ e.2.1 = a)
    (hdeep : 1 ≤ deep) :
    c ∉ envNodes g core deep ∧ ∀ p ∈ (getEnvironment g core deep).nodes, p.1 ≠ c := by
  obtain ⟨d, rfl⟩ : ∃ d, deep = d + 1 := ⟨deep - 1, (Nat.succ_pred_eq_of_pos hdeep).symm⟩
  obtain ⟨a, ha, e, he, hae⟩ := hconn
  have hei : e ∈ edgesIncident g core := by
    unfold edgesIncident
    rw [List.mem_filter]
    refine ⟨he, ?_⟩
    simp only [Bool.or_eq_true, decide_eq_true_eq]
    rcases hae with h1 | h1
    · exact Or.inl (by rw [h1]; exact ha)
    · exact Or.inr (by rw [h1]; exact ha)
  have h1mem : e.1 ∈ envStep g core := by
    unfold envStep
    rw [List.mem_toFinset, List.mem_flatMap]
    exact ⟨e, hei, List.mem_cons_self _ _⟩
  have hne : envStep g core ≠ ∅ := by
    intro hempty
    rw [hempty] at h1mem
    exact absurd h1mem (Finset.not_mem_empty _)
  have hnc : c ∉ envStep g core := not_mem_envStep_of_isolated g c hiso core
  have hnotin : envStep g core ∉ ([] : List (Finset Nat)) ++ [core] := by
    rw [List.nil_append, List.mem_singleton]
    intro heq
    rw [heq] at hnc
    exact hnc hc
  have hcond : ¬(envStep g core = ∅ ∨
      envStep g core ∈ ([] : List (Finset Nat)) ++ [core]) := by
    rintro (h1 | h1)
    · exact hne h1
    · exact hnotin h1
  have hmain : c ∉ envNodes g core (d + 1) := by
    unfold envNodes
    simp only [envLoop]
    rw [if_neg hcond]
    exact envLoop_avoid g c hiso d ([] ++ [core]) (envStep g core) hnc
  refine ⟨hmain, ?_⟩
  intro p hp hpc
  unfold getEnvironment subgraphOn at hp
  simp only [List.mem_filter, decide_eq_true_eq] at hp
  exact hmain (hpc ▸ hp.2)

/-- C10 witness: the isolated core atom 6 of `gIsoW` is dropped when the
environment of {4, 6} is taken at depth 1. -/
theorem env_isolated_core_dropped_witness :
    6 ∉ envNodes gIsoW {4, 6} 1 :=
  (env_isolated_core_dropped gIsoW {4, 6} 6 1 (by decide) (by decide)
     ⟨4, by decide, ⟨(4, 5, [("s_bond", PVal.int 1)]), by decide, Or.inl rfl⟩⟩
     (by decide)).1

theorem foldl_max_init_le (l : List Nat) (init : Nat) : init ≤ l.foldl max init := by
  induction l generalizing init with
  | nil => exact Nat.le_refl init
  | cons a t ih => exact Nat.le_trans (Nat.le_max_left init a) (ih (max init a))

theorem mem_le_foldl_max (l : List Nat) (init : Nat) (n : Nat) (h : n ∈ l) :
    n ≤ l.foldl max init := by
  induction l generalizing init with
  | nil => exact absurd h (List.not_mem_nil n)
  | cons a t ih =>
    rcases List.mem_cons.1 h with h1 | h1
    · subst h1
      exact Nat.le_trans (Nat.le_max_right init n) (foldl_max_init_le t (max init n))
    · exact ih (max init a) h1

theorem maxId_succ_not_mem (g : PyGraph) : maxId g + 1 ∉ g.nodeIds := by
  intro h
  have := mem_le_foldl_max g.nodeIds 0 (maxId g + 1) h
  unfold maxId at this
  omega

theorem nodes_any_eq_false (g : PyGraph) (n : Nat) (h : n ∉ g.nodeIds) :
    g.nodes.any (fun p => p.1 == n) = false :=
  List.any_eq_false.2 (fun p hp hbeq => h (List.mem_map.2 ⟨p, hp, beq_iff_eq.1 hbeq⟩))

theorem addNode_fresh (g : PyGraph) (n : Nat) (a : Attrs) (h : n ∉ g.nodeIds) :
    g.addNode n a = { g with nodes := g.nodes ++ [(n, a)] } := by
  simp [PyGraph.addNode, nodes_any_eq_false g n h]

theorem find?_nodes_append (nodes : List (Nat × Attrs)) (n : Nat) (a : Attrs)
    (h : ∀ p ∈ nodes, p.1 ≠ n) :
    (nodes ++ [(n, a)]).find? (fun p => p.1 == n) = some (n, a) := by
  rw [List.find?_append]
  have h1 : nodes.find? (fun p => p.1 == n) = Option.none :=
    List.find?_eq_none.2 (fun p hp hbeq => h p hp (beq_iff_eq.1 hbeq))
  rw [h1]
  simp [List.find?]

theorem nodeIds_addNode_fresh (g : PyGraph) (m : Nat) (a : Attrs) (hm : m ∉ g.nodeIds) :
    (g.addNode m a).nodeIds = g.nodeIds ++ [m] := by
  rw [addNode_fresh g m a hm]
  simp [PyGraph.nodeIds]

theorem nodeAttrs_addNode_fresh (g : PyGraph) (m : Nat) (a : Attrs) (hm : m ∉ g.nodeIds) :
    (g.addNode m a).nodeAttrs m = a := by
  rw [addNode_fresh g m a hm]
  unfold PyGraph.nodeAttrs
  rw [find?_nodes_append g.nodes m a (fun p hp hpm => hm (List.mem_map.2 ⟨p, hp, hpm⟩))]

theorem pyGet_cgrAtomAttrs_s (elem mk : String) (sc pcv sx sy sz pxv pyv pzv : Int)
    (m : Nat) :
    pyGet (cgrAtomAttrs elem sc pcv mk sx sy sz pxv pyv pzv m) "s_charge" = PVal.int sc := rfl

theorem pyGet_cgrAtomAttrs_p (elem mk : String) (sc pcv sx sy sz pxv pyv pzv : Int)
    (m : Nat) :
    pyGet (cgrAtomAttrs elem sc pcv mk sx sy sz pxv pyv pzv m) "p_charge" = PVal.int pcv := rfl

theorem addAtom_node_spec (g : PyGraph) (elem mk : String)
    (sc pcv sx sy sz pxv pyv pzv : Int) (m : Nat)
    (hm : m ∉ g.nodeIds) (hcb : chargesBoth g) :
    chargesBoth (g.addNode m (cgrAtomAttrs elem sc pcv mk sx sy sz pxv pyv pzv m)) ∧
    ∀ n, n ∉ g.nodeIds →
      n ∈ (g.addNode m (cgrAtomAttrs elem sc pcv mk sx sy sz pxv pyv pzv m)).nodeIds →
      pyGet ((g.addNode m (cgrAtomAttrs elem sc pcv mk sx sy sz pxv pyv pzv m)).nodeAttrs n)
          "s_charge" = PVal.int sc ∧
      pyGet ((g.addNode m (cgrAtomAttrs elem sc pcv mk sx sy sz pxv pyv pzv m)).nodeAttrs n)
          "p_charge" = PVal.int pcv := by
  constructor
  · rw [addNode_fresh g m _ hm]
    intro p hp
    rcases List.mem_append.1 hp with h1 | h1
    · exact hcb p h1
    · rw [List.mem_singleton] at h1
      subst h1
      exact ⟨fun hc => PVal.noConfusion hc, fun hc => PVal.noConfusion hc⟩
  · intro n hn hn2
    have hnm : n = m := by
      rw [nodeIds_addNode_fresh g m _ hm] at hn2
      rcases List.mem_append.1 hn2 with h1 | h1
      · exact absurd h1 hn
      · exact List.mem_singleton.1 h1
    subst hnm
    rw [nodeAttrs_addNode_fresh g n _ hm]
    exact ⟨pyGet_cgrAtomAttrs_s elem mk sc pcv sx sy sz pxv pyv pzv n,
           pyGet_cgrAtomAttrs_p elem mk sc pcv sx sy sz pxv pyv pzv n⟩

/-- C5 (counterexample): the invariant "a CGR atom always carries both
`s_charge` and `p_charge`" does not survive the listed public operation
`fix_data`: on the atom created by `add_atom('C', 0)` it replaces the equal
pair by a single `sp_charge`, leaving neither key. -/
theorem cgr_charge_invariant_breaks :
    addAtomCGR { kind := Kind.cgr, graph := { nodes := [], edges := [] }, meta := [] }
        "C" 0 Option.none Option.none "0" 0 0 0 Option.none Option.none Option.none
      = Except.ok cgrC5 ∧
    pyGet ((Container.fixData cgrC5 Option.none Option.none).graph.nodeAttrs 1) "s_charge"
      = PVal.none ∧
    pyGet ((Container.fixData cgrC5 Option.none Option.none).graph.nodeAttrs 1) "p_charge"
      = PVal.none ∧
    pyGet (cgrC5.graph.nodeAttrs 1) "s_charge" = PVal.int 0 := by
  exact ⟨rfl, by decide, by decide, by decide⟩

/-- C5 (amended): `CGRContainer.add_atom` gives every atom both `s_charge`
and `p_charge` (the product charge defaulting to the reagent one), and this
is preserved across further `add_atom` calls; but the invariant does not
survive `fix_data` (see the counterexample), and
`MoleculeContainer.reset_query_marks` writes the `p_hyb` and `p_neighbors`
marks onto the atoms of a plain molecule. -/
theorem cgr_add_atom_charges :
    (∀ (c : Container) (elem : String) (sc : Int) (pc : Option Int) (map? : Option Nat)
       (mk : String) (sx sy sz : Int) (px py pz : Option Int) (c2 : Container),
       chargesBoth c.graph →
       addAtomCGR c elem sc pc map? mk sx sy sz px py pz = Except.ok c2 →
       chargesBoth c2.graph ∧
       ∀ n, n ∉ c.graph.nodeIds → n ∈ c2.graph.nodeIds →
         pyGet (c2.graph.nodeAttrs n) "s_charge" = PVal.int sc ∧
         pyGet (c2.graph.nodeAttrs n) "p_charge" = PVal.int (pc.getD sc)) ∧
    pyGet ((Container.resetQueryMarks molC5).graph.nodeAttrs 1) "p_hyb" = PVal.int 1 ∧
    pyGet ((Container.resetQueryMarks molC5).graph.nodeAttrs 1) "p_neighbors" = PVal.int 0 := by
  refine ⟨?_, by decide, by decide⟩
  intro c elem sc pc map? mk sx sy sz px py pz c2 hcb heq
  cases map? with
  | none =>
    simp only [addAtomCGR] at heq
    cases heq
    exact addAtom_node_spec c.graph elem mk sc (pc.getD sc) sx sy sz
      (px.getD sx) (py.getD sy) (pz.getD sz) (maxId c.graph + 1)
      (maxId_succ_not_mem c.graph) hcb
  | some m =>
    by_cases hmem : m ∈ c.graph.nodeIds
    · simp only [addAtomCGR, if_pos hmem] at heq
      cases heq
    · simp only [addAtomCGR, if_neg hmem] at heq
      cases heq
      exact addAtom_node_spec c.graph elem mk sc (pc.getD sc) sx sy sz
        (px.getD sx) (py.getD sy) (pz.getD sz) m hmem hcb

/-- C5 witness: the amended theorem applied to a concrete `add_atom` call
on `cgrFD` (atom 5, reagent charge 1, product charge omitted). -/
theorem cgr_add_atom_charges_witness :
    chargesBoth cgrC5W.graph ∧
    pyGet (cgrC5W.graph.nodeAttrs 5) "s_charge" = PVal.int 1 ∧
    pyGet (cgrC5W.graph.nodeAttrs 5) "p_charge" = PVal.int 1 := by
  have h := cgr_add_atom_charges.1 cgrFD "O" 1 Option.none (some 5) "0" 0 0 0
    Option.none Option.none Option.none cgrC5W (by unfold chargesBoth; decide) rfl
  exact ⟨h.1, (h.2 5 (by decide) (by decide)).1, (h.2 5 (by decide) (by decide)).2⟩

theorem attrsUpdate_nil (a : Attrs) : attrsUpdate a [] = a := rfl

theorem addNode_existing_nil (g : PyGraph) (n : Nat) (h : n ∈ g.nodeIds) :
    g.addNode n [] = g := by
  have hany : g.nodes.any (fun p => p.1 == n) = true := by
    obtain ⟨p, hp, hfp⟩ := List.mem_map.1 h
    exact List.any_eq_true.2 ⟨p, hp, beq_iff_eq.2 hfp⟩
  have hmap : g.nodes.map (fun p => if p.1 == n then (p.1, attrsUpdate p.2 []) else p)
      = g.nodes := by
    have hpt : ∀ p : Nat × Attrs, (if p.1 == n then (p.1, attrsUpdate p.2 []) else p) = p := by
      intro p
      by_cases hb : (p.1 == n) = true
      · rw [if_pos hb]
        rfl
      · rw [if_neg hb]
    calc g.nodes.map (fun p => if p.1 == n then (p.1, attrsUpdate p.2 []) else p)
        = g.nodes.map id := List.map_congr_left (fun p _ => hpt p)
      _ = g.nodes := List.map_id g.nodes
  simp only [PyGraph.addNode, hany, if_true, hmap]

theorem sameEdge_flip (u v a b : Nat) (x y : Attrs) :
    sameEdge u v (a, b, x) = sameEdge a b (u, v, y) := by
  unfold sameEdge
  rw [Bool.eq_iff_iff]
  simp only [Bool.or_eq_true, Bool.and_eq_true, beq_iff_eq]
  constructor
  · rintro (⟨rfl, rfl⟩ | ⟨rfl, rfl⟩) <;> simp
  · rintro (⟨rfl, rfl⟩ | ⟨rfl, rfl⟩) <;> simp

theorem addEdge_fresh (g : PyGraph) (u v : Nat) (a : Attrs)
    (hu : u ∈ g.nodeIds) (hv : v ∈ g.nodeIds)
    (hnew : ∀ f ∈ g.edges, sameEdge u v f = false) :
    g.addEdge u v a = { g with edges := g.edges ++ [(u, v, a)] } := by
  simp only [PyGraph.addEdge]
  rw [addNode_existing_nil g u hu, addNode_existing_nil g v hv]
  have hany : g.edges.any (sameEdge u v) = false :=
    List.any_eq_false.2 (fun f hf => by simp [hnew f hf])
  simp [hany]

theorem addNodesFrom_append (g : PyGraph) (ns : List (Nat × Attrs))
    (hdisj : ∀ p ∈ ns, p.1 ∉ g.nodeIds)
    (hnodup : (ns.map (fun p => p.1)).Nodup) :
    addNodesFrom g ns = { g with nodes := g.nodes ++ ns } := by
  induction ns generalizing g with
  | nil => simp [addNodesFrom]
  | cons p rest ih =>
    simp only [addNodesFrom, List.foldl_cons]
    rw [addNode_fresh g p.1 p.2 (hdisj p (List.mem_cons_self p rest))]
    have hrest := ih { g with nodes := g.nodes ++ [(p.1, p.2)] }
      (by
        intro q hq hmem
        simp only [PyGraph.nodeIds, List.map_append, List.mem_append, List.map_cons,
          List.map_nil, List.mem_singleton] at hmem
        rcases hmem with h1 | h1
        · exact hdisj q (List.mem_cons_of_mem p hq) h1
        · rw [List.map_cons, List.nodup_cons] at hnodup
          exact hnodup.1 (h1 ▸ List.mem_map.2 ⟨q, hq, rfl⟩))
      (by rw [List.map_cons, List.nodup_cons] at hnodup; exact hnodup.2)
    simp only [addNodesFrom] at hrest
    rw [hrest]
    simp [List.append_assoc]

theorem addEdgesFrom_append (g : PyGraph) (es : List (Nat × Nat × Attrs))
    (hends : ∀ e ∈ es, e.1 ∈ g.nodeIds ∧ e.2.1 ∈ g.nodeIds)
    (hpair : es.Pairwise (fun e f => sameEdge e.1 e.2.1 f = false))
    (hnew : ∀ e ∈ es, ∀ f ∈ g.edges, sameEdge e.1 e.2.1 f = false) :
    addEdgesFrom g es = { g with edges := g.edges ++ es } := by
  induction es generalizing g with
  | nil => simp [addEdgesFrom]
  | cons e rest ih =>
    simp only [addEdgesFrom, List.foldl_cons]
    rw [addEdge_fresh g e.1 e.2.1 e.2.2 (hends e (List.mem_cons_self e rest)).1
      (hends e (List.mem_cons_self e rest)).2 (hnew e (List.mem_cons_self e rest))]
    rw [List.pairwise_cons] at hpair
    have hrest := ih { g with edges := g.edges ++ [(e.1, e.2.1, e.2.2)] }
      (fun q hq => hends q (List.mem_cons_of_mem e hq))
      hpair.2
      (by
        intro q hq f hf
        rcases List.mem_append.1 hf with h1 | h1
        · exact hnew q (List.mem_cons_of_mem e hq) f h1
        · rw [List.mem_singleton] at h1
          subst h1
          rw [sameEdge_flip q.1 q.2.1 e.1 e.2.1 e.2.2 q.2.2]
          exact hpair.1 q hq)
    simp only [addEdgesFrom] at hrest
    rw [hrest]
    simp [List.append_assoc]

/-- C7: `union` raises on any overlapping node-id sets; on disjoint
well-formed inputs it returns a fresh container whose kind is CGR exactly
when either input is a CGR, whose node and edge lists are the concatenation
of the inputs' (hence counts add and every attribute is preserved
verbatim), and whose meta is empty. -/
theorem union_spec (m1 m2 : Container) :
    ((∃ n, n ∈ m1.graph.nodeIds ∧ n ∈ m2.graph.nodeIds) →
       union m1 m2 = Except.error "The node sets of m1 and m2 are not disjoint.") ∧
    (m1.graph.WF → m2.graph.WF →
     (∀ n ∈ m1.graph.nodeIds, n ∉ m2.graph.nodeIds) →
     ∃ u, union m1 m2 = Except.ok u ∧
       u.kind = (if m1.kind = Kind.cgr ∨ m2.kind = Kind.cgr then Kind.cgr
                 else Kind.molecule) ∧
       u.graph.nodes = m1.graph.nodes ++ m2.graph.nodes ∧
       u.graph.edges = m1.graph.edges ++ m2.graph.edges ∧
       u.graph.nodes.length = m1.graph.nodes.length + m2.graph.nodes.length ∧
       u.graph.edges.length = m1.graph.edges.length + m2.graph.edges.length ∧
       u.meta = []) := by
  constructor
  · rintro ⟨n, h1, h2⟩
    unfold union
    rw [if_pos ⟨n, Finset.mem_inter.2 ⟨List.mem_toFinset.2 h1, List.mem_toFinset.2 h2⟩⟩]
  · intro h1 h2 hd
    have hcond : ¬(m1.graph.nodeIds.toFinset ∩ m2.graph.nodeIds.toFinset).Nonempty := by
      rintro ⟨n, hn⟩
      rw [Finset.mem_inter] at hn
      exact hd n (List.mem_toFinset.1 hn.1) (List.mem_toFinset.1 hn.2)
    have e1 : addNodesFrom { nodes := [], edges := [] } m1.graph.nodes
        = ({ nodes := m1.graph.nodes, edges := [] } : PyGraph) := by
      have := addNodesFrom_append { nodes := [], edges := [] } m1.graph.nodes
        (by intro p _; simp [PyGraph.nodeIds]) h1.1
      simpa using this
    have e2 : addNodesFrom { nodes := m1.graph.nodes, edges := [] } m2.graph.nodes
        = ({ nodes := m1.graph.nodes ++ m2.graph.nodes, edges := [] } : PyGraph) := by
      have := addNodesFrom_append { nodes := m1.graph.nodes, edges := [] } m2.graph.nodes
        (by
          intro p hp hmem
          exact hd p.1 hmem (List.mem_map.2 ⟨p, hp, rfl⟩))
        h2.1
      simpa using this
    have hids : ∀ es : List (Nat × Nat × Attrs),
        (({ nodes := m1.graph.nodes ++ m2.graph.nodes, edges := es } : PyGraph)).nodeIds
          = m1.graph.nodeIds ++ m2.graph.nodeIds := by
      intro es
      simp [PyGraph.nodeIds]
    have e3 : addEdgesFrom { nodes := m1.graph.nodes ++ m2.graph.nodes, edges := [] }
        m1.graph.edges
        = ({ nodes := m1.graph.nodes ++ m2.graph.nodes,
             edges := m1.graph.edges } : PyGraph) := by
      have := addEdgesFrom_append
        { nodes := m1.graph.nodes ++ m2.graph.nodes, edges := [] } m1.graph.edges
        (by
          intro e he
          rw [hids []]
          exact ⟨List.mem_append_left _ (h1.2.1 e he).1,
                 List.mem_append_left _ (h1.2.1 e he).2⟩)
        h1.2.2
        (by intro q _ f hf; exact absurd hf (List.not_mem_nil f))
      simpa using this
    have e4 : addEdgesFrom
        { nodes := m1.graph.nodes ++ m2.graph.nodes, edges := m1.graph.edges }
        m2.graph.edges
        = ({ nodes := m1.graph.nodes ++ m2.graph.nodes,
             edges := m1.graph.edges ++ m2.graph.edges } : PyGraph) := by
      have hne : ∀ (x y : Nat), x ∈ m2.graph.nodeIds → y ∈ m1.graph.nodeIds →
          (y == x) = false :=
        fun x y hx hy => beq_eq_false_iff_ne.2 (fun hxy => hd y hy (hxy ▸ hx))
      have := addEdgesFrom_append
        { nodes := m1.graph.nodes ++ m2.graph.nodes, edges := m1.graph.edges }
        m2.graph.edges
        (by
          intro e he
          rw [hids m1.graph.edges]
          exact ⟨List.mem_append_right _ (h2.2.1 e he).1,
                 List.mem_append_right _ (h2.2.1 e he).2⟩)
        h2.2.2
        (by
          intro q hq f hf
          unfold sameEdge
          rw [hne q.1 f.1 (h2.2.1 q hq).1 (h1.2.1 f hf).1,
              hne q.2.1 f.1 (h2.2.1 q hq).2 (h1.2.1 f hf).1]
          rfl)
      simpa using this
    simp only [union]
    rw [if_neg hcond, e1, e2, e3, e4]
    refine ⟨_, rfl, rfl, rfl, rfl, ?_, ?_, rfl⟩
    · simp
    · simp

/-- C7 witness: `union` on the concrete disjoint inputs `unionA` (molecule,
ids 1 and 2) and `unionB` (CGR, id 7). -/
theorem union_spec_witness :
    ∃ u, union unionA unionB = Except.ok u ∧
      u.kind = (if unionA.kind = Kind.cgr ∨ unionB.kind = Kind.cgr then Kind.cgr
                else Kind.molecule) ∧
      u.graph.nodes = unionA.graph.nodes ++ unionB.graph.nodes ∧
      u.graph.edges = unionA.graph.edges ++ unionB.graph.edges ∧
      u.graph.nodes.length = unionA.graph.nodes.length + unionB.graph.nodes.length ∧
      u.graph.edges.length = unionA.graph.edges.length + unionB.graph.edges.length ∧
      u.meta = [] :=
  (union_spec unionA unionB).2 (by unfold PyGraph.WF; decide) (by unfold PyGraph.WF; decide)
    (by decide)

theorem composeStep1_fold_spec (pop : String) (es : List (Nat × Nat × Attrs)) :
    ∀ st : PyGraph × Finset Nat,
      (es.foldlM (composeStep1 pop) st = Except.error stereoAttrErr ∧
         ∃ e ∈ es, pyTruthy (pyGet e.2.2 pop) = true) ∨
      (es.foldlM (composeStep1 pop) st = Except.ok (st.1, extFold st.2 es) ∧
         ∀ e ∈ es, pyTruthy (pyGet e.2.2 pop) = false) := by
  induction es with
  | nil =>
    intro st
    right
    exact ⟨rfl, fun e he => absurd he (List.not_mem_nil e)⟩
  | cons e rest ih =>
    intro st
    rw [List.foldlM_cons]
    by_cases hb : pyTruthy (pyGet e.2.2 pop) = true
    · left
      have hstep : composeStep1 pop st e = Except.error stereoAttrErr := by
        simp only [composeStep1]
        rw [if_pos hb]
      rw [hstep]
      exact ⟨rfl, ⟨e, List.mem_cons_self e rest, hb⟩⟩
    · have hb2 : pyTruthy (pyGet e.2.2 pop) = false := by
        cases hval : pyTruthy (pyGet e.2.2 pop)
        · rfl
        · exact absurd hval hb
      have hstep : composeStep1 pop st e
          = Except.ok (st.1, insert e.2.1 (insert e.1 st.2)) := by
        simp only [composeStep1]
        rw [if_neg (by simp [hb2])]
      rw [hstep]
      rcases ih (st.1, insert e.2.1 (insert e.1 st.2)) with ⟨herr, hex⟩ | ⟨hok, hall⟩
      · left
        refine ⟨herr, ?_⟩
        obtain ⟨f, hf, hft⟩ := hex
        exact ⟨f, List.mem_cons_of_mem e hf, hft⟩
      · right
        refine ⟨hok, ?_⟩
        intro f hf
        rcases List.mem_cons.1 hf with h1 | h1
        · subst h1; exact hb2
        · exact hall f h1

theorem composeStep2_fold_nil (st : PyGraph) :
    ([] : List (Nat × Nat × Attrs)).foldlM composeStep2 st = Except.ok st := rfl

theorem composeStep2_fold_cons (e : Nat × Nat × Attrs) (es : List (Nat × Nat × Attrs))
    (st : PyGraph) :
    (e :: es).foldlM composeStep2 st = Except.error stereoAttrErr := by
  rw [List.foldlM_cons]
  rfl

theorem composeRole_eq_of_ok (g : PyGraph) (pdi : PopDict) (common : Finset Nat)
    (h st1 : PyGraph) (st2 : Finset Nat)
    (hok : (edgesIncident g common).foldlM (composeStep1 pdi.edge) (h, common)
      = Except.ok (st1, st2)) :
    composeRole g pdi common h =
      match (edgesIncident g (g.nodeIds.toFinset \ st2)).foldlM composeStep2 st1 with
      | Except.error msg => Except.error msg
      | Except.ok h2 =>
          Except.ok (composeNodes g pdi common (g.nodeIds.toFinset \ st2) st2 h2, st2) := by
  unfold composeRole
  rw [hok]

theorem composeRole_spec (g : PyGraph) (pdi : PopDict) (common : Finset Nat) (h : PyGraph) :
    (composeRole g pdi common h = Except.error stereoAttrErr ∧
       roleRaisesCond g pdi.edge common) ∨
    ((∃ pr, composeRole g pdi common h = Except.ok pr) ∧
       ¬ roleRaisesCond g pdi.edge common) := by
  rcases composeStep1_fold_spec pdi.edge (edgesIncident g common) (h, common)
      with ⟨herr, hex⟩ | ⟨hok, hall⟩
  · left
    constructor
    · unfold composeRole
      rw [herr]
    · exact Or.inl hex
  · have hok2 : (edgesIncident g common).foldlM (composeStep1 pdi.edge) (h, common)
        = Except.ok (h, extCommonOf g common) := hok
    have heq := composeRole_eq_of_ok g pdi common h h (extCommonOf g common) hok2
    by_cases hun : edgesIncident g (g.nodeIds.toFinset \ extCommonOf g common) = []
    · right
      constructor
      · rw [hun, composeStep2_fold_nil] at heq
        exact ⟨_, heq⟩
      · rintro (⟨e, he, ht⟩ | ⟨a, ha, hna, e, he, hae⟩)
        · rw [hall e he] at ht
          exact Bool.false_ne_true ht
        · have hmem : e ∈ edgesIncident g (g.nodeIds.toFinset \ extCommonOf g common) := by
            simp only [edgesIncident, List.mem_filter]
            refine ⟨he, ?_⟩
            simp only [Bool.or_eq_true, decide_eq_true_eq, Finset.mem_sdiff,
              List.mem_toFinset]
            rcases hae with h1 | h1
            · exact Or.inl ⟨by rw [h1]; exact ha, by rw [h1]; exact hna⟩
            · exact Or.inr ⟨by rw [h1]; exact ha, by rw [h1]; exact hna⟩
          rw [hun] at hmem
          exact absurd hmem (List.not_mem_nil e)
    · left
      obtain ⟨e0, es0, hl⟩ := List.exists_cons_of_ne_nil hun
      constructor
      · rw [hl, composeStep2_fold_cons] at heq
        exact heq
      · right
        have hmem : e0 ∈ edgesIncident g (g.nodeIds.toFinset \ extCommonOf g common) := by
          rw [hl]
          exact List.mem_cons_self e0 es0
        simp only [edgesIncident, List.mem_filter] at hmem
        have hor := hmem.2
        simp only [Bool.or_eq_true, decide_eq_true_eq, Finset.mem_sdiff,
          List.mem_toFinset] at hor
        rcases hor with ⟨hid, hext⟩ | ⟨hid, hext⟩
        · exact ⟨e0.1, hid, hext, e0, hmem.1, Or.inl rfl⟩
        · exact ⟨e0.2.1, hid, hext, e0, hmem.1, Or.inr rfl⟩

theorem compose_eq_of_role1_ok (m1 m2 : Container) (pr1 : PyGraph × Finset Nat)
    (ho1 : composeRole m1.graph popdictReagents (composeCommon m1 m2)
      { nodes := [], edges := [] } = Except.ok pr1) :
    compose m1 m2 =
      match composeRole m2.graph popdictProducts (composeCommon m1 m2) pr1.1 with
      | Except.error msg => Except.error msg
      | Except.ok st2 =>
          Except.ok { kind := Kind.cgr,
                      graph := fixDataCGRG st2.1 (some (pr1.2 ∪ st2.2))
                        (some (composeCommon m1 m2)),
                      meta := [] } := by
  simp only [compose]
  rw [ho1]

/-- C2: `compose` ends in the `g.stereo` `AttributeError` exactly when, for
one of its roles (reagents read with `s_bond`, products with `p_bond`),
some edge incident to a common atom carries a truthy role bond mark, or
some role-local (non-common-adjacent) atom has an incident edge; on all
other inputs it completes and returns a CGR. -/
theorem compose_stereo_raises_iff (m1 m2 : Container) :
    (compose m1 m2 = Except.error stereoAttrErr ↔
       roleRaisesCond m1.graph "s_bond" (composeCommon m1 m2) ∨
       roleRaisesCond m2.graph "p_bond" (composeCommon m1 m2)) ∧
    ((∃ c, compose m1 m2 = Except.ok c) ↔
       ¬(roleRaisesCond m1.graph "s_bond" (composeCommon m1 m2) ∨
         roleRaisesCond m2.graph "p_bond" (composeCommon m1 m2))) := by
  rcases composeRole_spec m1.graph popdictReagents (composeCommon m1 m2)
      { nodes := [], edges := [] } with ⟨he1, hc1⟩ | ⟨⟨pr1, ho1⟩, hn1⟩
  · have hcomp : compose m1 m2 = Except.error stereoAttrErr := by
      simp only [compose]
      rw [he1]
    constructor
    · exact ⟨fun _ => Or.inl hc1, fun _ => hcomp⟩
    · constructor
      · rintro ⟨c, hc⟩
        rw [hcomp] at hc
        exact Except.noConfusion hc
      · intro hn
        exact absurd (Or.inl hc1) hn
  · rcases composeRole_spec m2.graph popdictProducts (composeCommon m1 m2) pr1.1
        with ⟨he2, hc2⟩ | ⟨⟨pr2, ho2⟩, hn2⟩
    · have hkey := compose_eq_of_role1_ok m1 m2 pr1 ho1
      rw [he2] at hkey
      have hcomp : compose m1 m2 = Except.error stereoAttrErr := hkey
      constructor
      · exact ⟨fun _ => Or.inr hc2, fun _ => hcomp⟩
      · constructor
        · rintro ⟨c, hc⟩
          rw [hcomp] at hc
          exact Except.noConfusion hc
        · intro hn
          exact absurd (Or.inr hc2) hn
    · have hkey := compose_eq_of_role1_ok m1 m2 pr1 ho1
      rw [ho2] at hkey
      have hcomp : ∃ c, compose m1 m2 = Except.ok c := ⟨_, hkey⟩
      have hnc : ¬(roleRaisesCond m1.graph "s_bond" (composeCommon m1 m2) ∨
          roleRaisesCond m2.graph "p_bond" (composeCommon m1 m2)) := by
        rintro (hc | hc)
        · exact hn1 hc
        · exact hn2 hc
      constructor
      · constructor
        · intro herr
          obtain ⟨c, hc⟩ := hcomp
          rw [herr] at hc
          exact Except.noConfusion hc
        · intro hcond
          exact absurd hcond hnc
      · exact ⟨fun _ => hnc, fun _ => hcomp⟩
